import Mathlib

/-!
Shallow embedding of `src/chrlogin.c`, a setuid-root chroot login shim.

C strings (paths, environment entries) are modelled as `List Char`: the
characters before the NUL terminator.  The kernel and libc primitives that
the program calls (`stat`, `chdir`, `chroot`, `setuid`, `getpwuid`,
`putenv`, `execve`) are modelled by an oracle structure `World`.  A run of
the program yields an `Outcome` (process exit with a code, or replacement
of the process image by a successful `execve`) together with the trace of
observable operations, in program order.

The source's fixed 1024-byte buffers are modelled by truncating the data
that is copied into them: `strncpy(chroot_dir, pw_dir, MAX_STRING - 1)`
followed by the sentinel store becomes `List.take (MAX_STRING - 1)`, and
the `strncat` calls become truncating appends with the corresponding
bounds.
-/

namespace Chrlogin

/-- The SHELL configuration macro, the string "/bin/bash" (line 35). -/
def SHELL : List Char := ['/', 'b', 'i', 'n', '/', 'b', 'a', 's', 'h']

/-- The CHROOT_LEVEL configuration macro, reference value 2 (line 46).
It is an `Int` because the walk counter `cnt` is a C `int` starting at -1. -/
def CHROOT_LEVEL : Int := 2

/-- MAX_STRING, the size of the fixed-size path buffers (line 61). -/
def MAX_STRING : Nat := 1024

/-- The separator-walk loop of lines 116-123:
`for(p = chroot_dir, cnt = -1; *p; p++) { if(*p == '/') cnt++;
if(cnt == CHROOT_LEVEL) { *p = 0; break; } }`.
Returns the buffer contents after the loop (truncated at the break point,
if any) together with the final value of `cnt`. -/
def chrootWalk (level : Int) : List Char → Int → List Char × Int
  | [], cnt => ([], cnt)
  | c :: rest, cnt =>
    let cnt2 := if c = '/' then cnt + 1 else cnt
    if cnt2 = level then ([], cnt2)
    else
      let r := chrootWalk level rest cnt2
      (c :: r.1, r.2)

/-- The jail-root derivation: the separator walk followed by the
`cnt < CHROOT_LEVEL` check of lines 125-130.  `none` is the fatal
"home directory too short" outcome. -/
def extractChroot (level : Int) (P : List Char) : Option (List Char) :=
  let r := chrootWalk level P (-1)
  if r.2 < level then none else some r.1

/-- Indices of the separator characters of a path: the `S(P)` of the spec. -/
def sepIdx : List Char → List Nat
  | [] => []
  | c :: rest =>
    if c = '/' then 0 :: (sepIdx rest).map (· + 1)
    else (sepIdx rest).map (· + 1)

/-- Number of separator characters in a path. -/
def countSep (P : List Char) : Nat := P.count '/'

/-- A password database record: the `pw_uid`, `pw_dir`, `pw_shell` fields
of `struct passwd` that the program reads. -/
structure PwEnt where
  uid : Nat
  dir : List Char
  shell : List Char
deriving DecidableEq

/-- What the stat-based checks of the program distinguish (`S_ISREG`). -/
inductive FType
  | regular
  | directory
  | other
deriving DecidableEq

/-- The stderr diagnostics of the program, one tag per fprintf site. -/
inductive Diag
  | needSetuidRoot
  | rootTarget
  | noOuterUser
  | relHome
  | homeStatFail
  | tooShort
  | shellStatFail
  | shellNotRegular
  | chdirRootFail
  | chrootFail
  | noInnerUser
  | chdirHomeFail
deriving DecidableEq

/-- Observable operations, in program order: filesystem calls, the uid
drop, password-database lookups, environment mutation, exec, and writes
of diagnostics to stderr. -/
inductive Event
  | statE (path : List Char) (res : Option FType)
  | chdirE (path : List Char) (ok : Bool)
  | chrootE (path : List Char) (ok : Bool)
  | setuidE (uid : Nat) (ok : Bool)
  | getpwE (uid : Nat) (res : Option PwEnt)
  | putenvE (entry : List Char)
  | execveE (path : List Char) (argv : List (List Char)) (env : List (List Char))
  | errE (d : Diag)
deriving DecidableEq

/-- Final state of a run: either the process exited with a code, or the
image was replaced by a successful `execve` with the given path, argument
vector and environment. -/
inductive Outcome
  | exited (code : Int)
  | execed (path : List Char) (argv : List (List Char)) (env : List (List Char))
deriving DecidableEq

/-- Oracle for the external world: the two process uids, the host password
database, the pre-chroot filesystem (`statF`, `chdirOk`, `chrootOk`),
whether `setuid` succeeds, the jailed password database and filesystem
(consulted after the root change), and whether `execve` succeeds. -/
structure World where
  euid : Nat
  ruid : Nat
  outerPw : Option PwEnt
  statF : List Char → Option FType
  chdirOk : List Char → Bool
  chrootOk : List Char → Bool
  setuidOk : Bool
  innerPw : Option PwEnt
  innerChdirOk : List Char → Bool
  execOk : Bool

/-- The literal "HOME=" written by `strcpy(home_dir, "HOME=")` (line 191). -/
def homeEq : List Char := ['H', 'O', 'M', 'E', '=']

/-- The name "HOME". -/
def homeName : List Char := ['H', 'O', 'M', 'E']

/-- Name part of an environment entry (the characters before `=`). -/
def envName (s : List Char) : List Char := s.takeWhile (fun c => ¬ c = '=')

/-- The `HOME=...` entry built at lines 191-192:
`strcpy(home_dir, "HOME="); strncat(home_dir, pw_dir, MAX_STRING - 5)`. -/
def homeVar (d : List Char) : List Char := homeEq ++ d.take (MAX_STRING - homeEq.length)

/-- `putenv` on the process environment: replace the first entry with the
same name, else append. -/
def putenvUpd : List (List Char) → List Char → List (List Char)
  | [], s => [s]
  | e :: rest, s =>
    if envName e = envName s then s :: rest
    else e :: putenvUpd rest s

/-- The host-visible path of the jailed shell built at lines 135-136:
`strncpy(shell, chroot_dir, MAX_STRING); strncat(shell, SHELL,
MAX_STRING - strlen(shell))`, i.e. the concatenation truncated to the
buffer size. -/
def shellHost (root : List Char) : List Char := (root ++ SHELL).take MAX_STRING

/-- Lines 176-198: chdir to the jailed home, rewrite `argv[0]` to the
inner record's shell, set HOME, and `execve(SHELL, argv, envp)`.  If the
exec call returns, `main` falls through to `return 0`. -/
def execStage (w : World) (argv env : List (List Char)) (ipw : PwEnt) :
    Outcome × List Event :=
  if w.innerChdirOk ipw.dir = true then
    ((if w.execOk = true then
        Outcome.execed SHELL (ipw.shell :: argv.tail) (putenvUpd env (homeVar ipw.dir))
      else Outcome.exited 0),
      [Event.chdirE ipw.dir true, Event.putenvE (homeVar ipw.dir),
       Event.execveE SHELL (ipw.shell :: argv.tail) (putenvUpd env (homeVar ipw.dir))])
  else (Outcome.exited (-1), [Event.chdirE ipw.dir false, Event.errE Diag.chdirHomeFail])

/-- Lines 167-173: look up the real uid in the jailed password database. -/
def innerStage (w : World) (argv env : List (List Char)) : Outcome × List Event :=
  match w.innerPw with
  | none => (Outcome.exited (-1), [Event.getpwE w.ruid none, Event.errE Diag.noInnerUser])
  | some ipw =>
    ((execStage w argv env ipw).1,
      Event.getpwE w.ruid (some ipw) :: (execStage w argv env ipw).2)

/-- Lines 150-164: `chdir(chroot_dir)`, `chroot(chroot_dir)`, then
`setuid(real_user)`.  The source ignores the return value of `setuid`
(line 164), so the run continues regardless of `w.setuidOk`. -/
def jailStage (w : World) (argv env : List (List Char)) (root : List Char) :
    Outcome × List Event :=
  if w.chdirOk root = true then
    if w.chrootOk root = true then
      ((innerStage w argv env).1,
        Event.chdirE root true :: Event.chrootE root true ::
          Event.setuidE w.ruid w.setuidOk :: (innerStage w argv env).2)
    else (Outcome.exited (-1),
      [Event.chdirE root true, Event.chrootE root false, Event.errE Diag.chrootFail])
  else (Outcome.exited (-1), [Event.chdirE root false, Event.errE Diag.chdirRootFail])

/-- Lines 133-147: stat the host-visible shell path and require a regular
file, before any chroot. -/
def shellStage (w : World) (argv env : List (List Char)) (root : List Char) :
    Outcome × List Event :=
  match w.statF (shellHost root) with
  | none => (Outcome.exited (-1),
      [Event.statE (shellHost root) none, Event.errE Diag.shellStatFail])
  | some ft =>
    if ft = FType.regular then
      ((jailStage w argv env root).1,
        Event.statE (shellHost root) (some ft) :: (jailStage w argv env root).2)
    else (Outcome.exited (-1),
      [Event.statE (shellHost root) (some ft), Event.errE Diag.shellNotRegular])

/-- Lines 103-111: the non-fatal diagnostics on the copied home path (the
relative-path report and the stat report), in source order. -/
def derivePre (w : World) (cdir : List Char) : List Event :=
  (if cdir.head? = some '/' then [] else [Event.errE Diag.relHome])
    ++ [Event.statE cdir (w.statF cdir)]
    ++ (if w.statF cdir = none then [Event.errE Diag.homeStatFail] else [])

/-- Lines 103-147: home-path diagnostics, jail-root extraction with the
fatal "too short" check, then the shell validation stage. -/
def deriveStage (w : World) (argv env : List (List Char)) (cdir : List Char) :
    Outcome × List Event :=
  match extractChroot CHROOT_LEVEL cdir with
  | none => (Outcome.exited (-1), derivePre w cdir ++ [Event.errE Diag.tooShort])
  | some root =>
    ((shellStage w argv env root).1, derivePre w cdir ++ (shellStage w argv env root).2)

/-- `main` (lines 64-199): the sanity checks on the two uids, the outer
password lookup, the bounded copy of the home path into `chroot_dir`
(lines 100-101, modelled by `List.take (MAX_STRING - 1)`), and the rest of
the pipeline. -/
def run (w : World) (argv env : List (List Char)) : Outcome × List Event :=
  if w.euid ≠ 0 then (Outcome.exited (-1), [Event.errE Diag.needSetuidRoot])
  else if w.ruid = 0 then (Outcome.exited (-1), [Event.errE Diag.rootTarget])
  else
    match w.outerPw with
    | none => (Outcome.exited (-1), [Event.getpwE w.ruid none, Event.errE Diag.noOuterUser])
    | some pw =>
      ((deriveStage w argv env (pw.dir.take (MAX_STRING - 1))).1,
        Event.getpwE w.ruid (some pw)
          :: (deriveStage w argv env (pw.dir.take (MAX_STRING - 1))).2)

/-- Events that may appear before jail entry without violating the call
ordering property: stat calls, stderr diagnostics, and the (outer)
password lookup. -/
def isQuiet : Event → Bool
  | Event.statE _ _ => true
  | Event.errE _ => true
  | Event.getpwE _ _ => true
  | _ => false

/-- Password-database lookup events. -/
def isLookup : Event → Bool
  | Event.getpwE _ _ => true
  | _ => false

/-- A world with outer home truncated to the first `MAX_STRING - 1`
characters, as the copy at lines 100-101 does. -/
def truncOuter (w : World) (pw : PwEnt) : World :=
  ⟨w.euid, w.ruid, some ⟨pw.uid, pw.dir.take (MAX_STRING - 1), pw.shell⟩,
    w.statF, w.chdirOk, w.chrootOk, w.setuidOk, w.innerPw, w.innerChdirOk, w.execOk⟩

/-- Outer password record of the concrete test world: uid 1000, home
`/home/chroot/home/joe`. -/
def pwOuter : PwEnt := ⟨1000, ("/home/chroot/home/joe").toList, ("/usr/local/sbin/chrlogin").toList⟩

/-- Inner (jailed) password record of the concrete test world. -/
def pwInner : PwEnt := ⟨1000, ("/home/joe").toList, ("/bin/bash").toList⟩

/-- Host filesystem of the concrete test world: the outer home exists as a
directory, and the jailed shell exists as a regular file. -/
def statHappy : List Char → Option FType := fun p =>
  if p = ("/home/chroot/home/joe").toList then some FType.directory
  else if p = ("/home/chroot/bin/bash").toList then some FType.regular
  else none

/-- A world on which every step succeeds. -/
def wHappy : World :=
  ⟨0, 1000, some pwOuter, statHappy, fun _ => true, fun _ => true, true,
    some pwInner, fun _ => true, true⟩

/-- The happy world except that the `setuid` call fails. -/
def wSetuidFail : World :=
  ⟨0, 1000, some pwOuter, statHappy, fun _ => true, fun _ => true, false,
    some pwInner, fun _ => true, true⟩

/-- The happy world except that the `execve` call fails (returns). -/
def wExecFail : World :=
  ⟨0, 1000, some pwOuter, statHappy, fun _ => true, fun _ => true, true,
    some pwInner, fun _ => true, false⟩

/-- Outer record with a relative home path. -/
def pwRel : PwEnt := ⟨1000, ("home/chroot/home/joe").toList, ("/usr/local/sbin/chrlogin").toList⟩

/-- Host filesystem for the relative-home world: the shell is found under
the relative jail root that the walk derives. -/
def statRel : List Char → Option FType := fun p =>
  if p = ("home/chroot/home/joe").toList then some FType.directory
  else if p = ("home/chroot/home/bin/bash").toList then some FType.regular
  else none

/-- A world whose outer home path is relative; every later step succeeds. -/
def wRel : World :=
  ⟨0, 1000, some pwRel, statRel, fun _ => true, fun _ => true, true,
    some pwInner, fun _ => true, true⟩

/-- Argument vector of the concrete runs. -/
def argvH : List (List Char) := [("/usr/local/sbin/chrlogin").toList]

/-- Inherited environment of the concrete runs. -/
def envH : List (List Char) := [("TERM=vt100").toList, ("HOME=/home/chroot/home/joe").toList]

/-- A world whose effective uid is not 0 (the binary is not setuid root). -/
def wBadEuid : World :=
  ⟨1000, 1000, some pwOuter, statHappy, fun _ => true, fun _ => true, true,
    some pwInner, fun _ => true, true⟩

/-- Claim C1, call ordering: in a successful run the trace decomposes into
a prefix of stat calls, diagnostics and the single outer lookup, followed
immediately by chdir(jail), chroot(jail), setuid(ruid), the inner lookup,
chdir(inner home), putenv(HOME=...), execve(SHELL) and nothing else; in
particular chroot and setuid are adjacent. -/
def C1Concl (w : World) (p : List Char)
    (a e : List (List Char)) (tr : List Event) : Prop :=
  ∃ pre root ipw,
    w.innerPw = some ipw ∧
    p = SHELL ∧
    tr = pre ++ [Event.chdirE root true, Event.chrootE root true,
                 Event.setuidE w.ruid w.setuidOk,
                 Event.getpwE w.ruid (some ipw),
                 Event.chdirE ipw.dir true,
                 Event.putenvE (homeVar ipw.dir),
                 Event.execveE SHELL a e] ∧
    (∀ ev ∈ pre, isQuiet ev = true) ∧
    pre.countP isLookup = 1 ∧
    (∃ d, homeVar ipw.dir = homeEq ++ d)

/-- Claim C2, jail-root derivation: the walk agrees with the separator
index list `S(P)` of the spec, fails exactly when the path has fewer than
L separators after the leading one, returns the longest prefix containing
exactly L separators (the claim's examples count the leading root
separator among the L), and the failure is fatal with the "too short"
diagnostic in a run. -/
def C2Concl (P : List Char) (L : Nat) : Prop :=
  extractChroot (L : Int) P = ((sepIdx P)[L]?).map (fun i => P.take i) ∧
  (extractChroot (L : Int) P = none ↔ countSep P - 1 < L) ∧
  (∀ Q, extractChroot (L : Int) P = some Q →
    ∃ i, (sepIdx P)[L]? = some i ∧ Q = P.take i ∧ countSep Q = L ∧
      ∀ n, n ≤ P.length → countSep (P.take n) = L → n ≤ Q.length) ∧
  (∀ (w : World) (argv env : List (List Char)) (pw : PwEnt),
    w.euid = 0 → ¬ w.ruid = 0 → w.outerPw = some pw → pw.dir = P →
    P.length ≤ MAX_STRING - 1 → (L : Int) = CHROOT_LEVEL →
    extractChroot (L : Int) P = none →
    (run w argv env).1 = Outcome.exited (-1) ∧
      Event.errE Diag.tooShort ∈ (run w argv env).2)

/-- Claim C3, uid gates: a run with wrong effective uid or root real uid
exits non-zero with a diagnostic, without chroot, setuid or execve. -/
def C3Concl (w : World) (argv env : List (List Char)) : Prop :=
  (∃ c : Int, (run w argv env).1 = Outcome.exited c ∧ ¬ c = 0) ∧
  (∃ d, Event.errE d ∈ (run w argv env).2) ∧
  (∀ r b, ¬ Event.chrootE r b ∈ (run w argv env).2) ∧
  (∀ u b, ¬ Event.setuidE u b ∈ (run w argv env).2) ∧
  (∀ p a e, ¬ Event.execveE p a e ∈ (run w argv env).2)

/-- Claim C6, shell validation: when the host stat of jail-root ++ SHELL
fails or yields a non-regular file the run exits without any chroot call,
and any chroot call in any trace is on the jail root and strictly preceded
by the successful stat of jail-root ++ SHELL. -/
def C6Concl (w : World) (argv env : List (List Char)) (root : List Char) : Prop :=
  (w.statF (root ++ SHELL) = none →
    (run w argv env).1 = Outcome.exited (-1) ∧
      ∀ r b, ¬ Event.chrootE r b ∈ (run w argv env).2) ∧
  (∀ ft, w.statF (root ++ SHELL) = some ft → ¬ ft = FType.regular →
    (run w argv env).1 = Outcome.exited (-1) ∧
      ∀ r b, ¬ Event.chrootE r b ∈ (run w argv env).2) ∧
  (∀ r b, Event.chrootE r b ∈ (run w argv env).2 →
    r = root ∧ w.statF (root ++ SHELL) = some FType.regular ∧
      ∃ pre post,
        (run w argv env).2 = pre ++ Event.statE (root ++ SHELL) (some FType.regular) :: post ∧
        (∀ r2 b2, ¬ Event.chrootE r2 b2 ∈ pre) ∧
        Event.chrootE r b ∈ post)

/-- Claim C7, environment: the environment passed to execve holds
HOME=inner-home as its (first) HOME entry and agrees with the inherited
environment on every entry whose name is not HOME. -/
def C7Concl (env e : List (List Char)) (d : List Char) : Prop :=
  e.find? (fun s => envName s = homeName) = some (homeEq ++ d) ∧
  e.filter (fun s => ¬ envName s = homeName) =
    env.filter (fun s => ¬ envName s = homeName)

/-- Claim C8, exec arguments: the exec path is the SHELL constant and
argv[0] is the inner record's shell, with the rest of argv inherited. -/
def C8Concl (argv : List (List Char)) (p : List Char) (a : List (List Char))
    (ipw : PwEnt) : Prop :=
  p = SHELL ∧ a = ipw.shell :: argv.tail ∧ a.tail = argv.tail

/-- Claim C9, relative home: the run emits the relative-home diagnostic
and continues: the home stat follows it, and the derivation proceeds on
the path (failing with "too short" or reaching the shell check). -/
def C9Concl (w : World) (argv env : List (List Char)) (pw : PwEnt) : Prop :=
  (∃ rest, (run w argv env).2 =
    Event.getpwE w.ruid (some pw) :: Event.errE Diag.relHome ::
      Event.statE (pw.dir.take (MAX_STRING - 1))
        (w.statF (pw.dir.take (MAX_STRING - 1))) :: rest) ∧
  (extractChroot CHROOT_LEVEL (pw.dir.take (MAX_STRING - 1)) = none →
    (run w argv env).1 = Outcome.exited (-1) ∧
      Event.errE Diag.tooShort ∈ (run w argv env).2) ∧
  (∀ root, extractChroot CHROOT_LEVEL (pw.dir.take (MAX_STRING - 1)) = some root →
    Event.statE (shellHost root) (w.statF (shellHost root)) ∈ (run w argv env).2)

theorem countSep_cons (c : Char) (l : List Char) :
    countSep (c :: l) = countSep l + (if c = '/' then 1 else 0) := by
  simp [countSep, List.count_cons]

theorem sepIdx_length (P : List Char) : (sepIdx P).length = countSep P := by
  induction P with
  | nil => simp [sepIdx, countSep]
  | cons c rest ih =>
    by_cases hc : c = '/' <;> simp [sepIdx, hc, countSep_cons, ih]

theorem chrootWalk_found (level : Int) (P : List Char) :
    ∀ cnt : Int, cnt < level →
      ∀ i, (sepIdx P)[(level - cnt - 1).toNat]? = some i →
        chrootWalk level P cnt = (P.take i, level) := by
  induction P with
  | nil => intro cnt _ i hi; simp [sepIdx] at hi
  | cons c rest ih =>
    intro cnt hlt i hi
    by_cases hc : c = '/'
    · by_cases heq : cnt + 1 = level
      · have hk : (level - cnt - 1).toNat = 0 := by omega
        rw [hk] at hi
        simp [sepIdx, hc] at hi
        subst hi
        simp [chrootWalk, hc, heq]
      · have hlt2 : cnt + 1 < level := by omega
        have hk : (level - cnt - 1).toNat = (level - (cnt + 1) - 1).toNat + 1 := by omega
        rw [hk] at hi
        simp [sepIdx, hc, Option.map_eq_some'] at hi
        obtain ⟨i2, hi2, rfl⟩ := hi
        rw [show (level - (cnt + 1)).toNat - 1 = (level - (cnt + 1) - 1).toNat from by omega] at hi2
        have hrec := ih (cnt + 1) hlt2 i2 hi2
        simp [chrootWalk, hc, heq, hrec]
    · have heq : ¬ cnt = level := by omega
      simp [sepIdx, hc, Option.map_eq_some'] at hi
      obtain ⟨i2, hi2, rfl⟩ := hi
      rw [show (level - cnt).toNat - 1 = (level - cnt - 1).toNat from by omega] at hi2
      have hrec := ih cnt hlt i2 hi2
      simp [chrootWalk, hc, heq, hrec]

theorem chrootWalk_notfound (level : Int) (P : List Char) :
    ∀ cnt : Int, cnt < level →
      (sepIdx P)[(level - cnt - 1).toNat]? = none →
        chrootWalk level P cnt = (P, cnt + countSep P) := by
  induction P with
  | nil => intro cnt _ _; simp [chrootWalk, countSep]
  | cons c rest ih =>
    intro cnt hlt hi
    by_cases hc : c = '/'
    · by_cases heq : cnt + 1 = level
      · have hk : (level - cnt - 1).toNat = 0 := by omega
        rw [hk] at hi
        simp [sepIdx, hc] at hi
      · have hlt2 : cnt + 1 < level := by omega
        have hk : (level - cnt - 1).toNat = (level - (cnt + 1) - 1).toNat + 1 := by omega
        rw [hk] at hi
        simp [sepIdx, hc, Option.map_eq_none'] at hi
        have hrec := ih (cnt + 1) hlt2 (List.getElem?_eq_none (by omega))
        simp [chrootWalk, hc, heq, hrec, countSep_cons]
        omega
    · have heq : ¬ cnt = level := by omega
      simp [sepIdx, hc, Option.map_eq_none'] at hi
      have hrec := ih cnt hlt (List.getElem?_eq_none (by omega))
      simp [chrootWalk, hc, heq, hrec, countSep_cons]

theorem extractChroot_eq (L : Nat) (P : List Char) :
    extractChroot (L : Int) P = ((sepIdx P)[L]?).map (fun i => P.take i) := by
  cases hg : (sepIdx P)[L]? with
  | some i =>
    have hw := chrootWalk_found (L : Int) P (-1) (by omega) i
      (by have hk : ((L : Int) - (-1) - 1).toNat = L := by omega
          rw [hk]; exact hg)
    have hcond : ¬ ((L : Int) < (L : Int)) := by omega
    simp [extractChroot, hw, hcond]
  | none =>
    have hw := chrootWalk_notfound (L : Int) P (-1) (by omega)
      (by have hk : ((L : Int) - (-1) - 1).toNat = L := by omega
          rw [hk]; exact hg)
    have hlen : (sepIdx P).length ≤ L := by simpa using hg
    have hle : countSep P ≤ L := by rw [← sepIdx_length]; exact hlen
    have hcond : (-1 : Int) + countSep P < (L : Int) := by omega
    simp [extractChroot, hw, hcond]

theorem sepIdx_get_spec (P : List Char) :
    ∀ L i : Nat, (sepIdx P)[L]? = some i →
      i < P.length ∧ countSep (P.take i) = L ∧
        ∀ n, i < n → L + 1 ≤ countSep (P.take n) := by
  induction P with
  | nil => intro L i h; simp [sepIdx] at h
  | cons c rest ih =>
    intro L i h
    by_cases hc : c = '/'
    · cases L with
      | zero =>
        simp [sepIdx, hc] at h
        subst h
        refine ⟨by simp, by simp [countSep], ?_⟩
        intro n hn
        cases n with
        | zero => omega
        | succ m =>
          simp [List.take_succ_cons, countSep_cons, hc]
      | succ L2 =>
        simp [sepIdx, hc, Option.map_eq_some'] at h
        obtain ⟨i2, hi2, rfl⟩ := h
        obtain ⟨h1, h2, h3⟩ := ih L2 i2 hi2
        refine ⟨by simp; omega, ?_, ?_⟩
        · simp [List.take_succ_cons, countSep_cons, hc, h2]
        · intro n hn
          cases n with
          | zero => omega
          | succ m =>
            have hm := h3 m (by omega)
            simp [List.take_succ_cons, countSep_cons, hc]
            omega
    · simp [sepIdx, hc, Option.map_eq_some'] at h
      obtain ⟨i2, hi2, rfl⟩ := h
      obtain ⟨h1, h2, h3⟩ := ih L i2 hi2
      refine ⟨by simp; omega, ?_, ?_⟩
      · simp [List.take_succ_cons, countSep_cons, hc, h2]
      · intro n hn
        cases n with
        | zero => omega
        | succ m =>
          have hm := h3 m (by omega)
          simp [List.take_succ_cons, countSep_cons, hc]
          omega

theorem execStage_fst (w : World) (argv env : List (List Char)) (ipw : PwEnt)
    (p : List Char) (a e : List (List Char))
    (h : (execStage w argv env ipw).1 = Outcome.execed p a e) :
    w.innerChdirOk ipw.dir = true ∧ w.execOk = true ∧ p = SHELL ∧
      a = ipw.shell :: argv.tail ∧ e = putenvUpd env (homeVar ipw.dir) ∧
      (execStage w argv env ipw).2 =
        [Event.chdirE ipw.dir true, Event.putenvE (homeVar ipw.dir),
         Event.execveE SHELL (ipw.shell :: argv.tail) (putenvUpd env (homeVar ipw.dir))] := by
  by_cases h1 : w.innerChdirOk ipw.dir = true
  · by_cases h2 : w.execOk = true
    · simp [execStage, h1, h2] at h ⊢
      exact ⟨h.1.symm, h.2.1.symm, h.2.2.symm⟩
    · simp [execStage, h1, h2] at h
  · simp [execStage, h1] at h

theorem innerStage_fst (w : World) (argv env : List (List Char))
    (p : List Char) (a e : List (List Char))
    (h : (innerStage w argv env).1 = Outcome.execed p a e) :
    ∃ ipw, w.innerPw = some ipw ∧
      (execStage w argv env ipw).1 = Outcome.execed p a e ∧
      (innerStage w argv env).2 =
        Event.getpwE w.ruid (some ipw) :: (execStage w argv env ipw).2 := by
  cases hin : w.innerPw with
  | none => simp [innerStage, hin] at h
  | some ipw =>
    exact ⟨ipw, rfl, by simpa [innerStage, hin] using h, by simp [innerStage, hin]⟩

theorem jailStage_fst (w : World) (argv env : List (List Char)) (root : List Char)
    (p : List Char) (a e : List (List Char))
    (h : (jailStage w argv env root).1 = Outcome.execed p a e) :
    w.chdirOk root = true ∧ w.chrootOk root = true ∧
      (innerStage w argv env).1 = Outcome.execed p a e ∧
      (jailStage w argv env root).2 =
        Event.chdirE root true :: Event.chrootE root true ::
          Event.setuidE w.ruid w.setuidOk :: (innerStage w argv env).2 := by
  by_cases h1 : w.chdirOk root = true
  · by_cases h2 : w.chrootOk root = true
    · exact ⟨h1, h2, by simpa [jailStage, h1, h2] using h, by simp [jailStage, h1, h2]⟩
    · simp [jailStage, h1, h2] at h
  · simp [jailStage, h1] at h

theorem shellStage_fst (w : World) (argv env : List (List Char)) (root : List Char)
    (p : List Char) (a e : List (List Char))
    (h : (shellStage w argv env root).1 = Outcome.execed p a e) :
    w.statF (shellHost root) = some FType.regular ∧
      (jailStage w argv env root).1 = Outcome.execed p a e ∧
      (shellStage w argv env root).2 =
        Event.statE (shellHost root) (some FType.regular) ::
          (jailStage w argv env root).2 := by
  cases hs : w.statF (shellHost root) with
  | none => simp [shellStage, hs] at h
  | some ft =>
    by_cases hf : ft = FType.regular
    · subst hf
      exact ⟨rfl, by simpa [shellStage, hs] using h, by simp [shellStage, hs]⟩
    · simp [shellStage, hs, hf] at h

theorem deriveStage_fst (w : World) (argv env : List (List Char)) (cdir : List Char)
    (p : List Char) (a e : List (List Char))
    (h : (deriveStage w argv env cdir).1 = Outcome.execed p a e) :
    ∃ root, extractChroot CHROOT_LEVEL cdir = some root ∧
      (shellStage w argv env root).1 = Outcome.execed p a e ∧
      (deriveStage w argv env cdir).2 =
        derivePre w cdir ++ (shellStage w argv env root).2 := by
  cases hx : extractChroot CHROOT_LEVEL cdir with
  | none => simp [deriveStage, hx] at h
  | some root =>
    exact ⟨root, rfl, by simpa [deriveStage, hx] using h, by simp [deriveStage, hx]⟩

theorem run_execed (w : World) (argv env : List (List Char))
    (p : List Char) (a e : List (List Char)) (tr : List Event)
    (h : run w argv env = (Outcome.execed p a e, tr)) :
    ∃ pw root ipw,
      w.euid = 0 ∧ w.ruid ≠ 0 ∧ w.outerPw = some pw ∧
      extractChroot CHROOT_LEVEL (pw.dir.take (MAX_STRING - 1)) = some root ∧
      w.statF (shellHost root) = some FType.regular ∧
      w.chdirOk root = true ∧ w.chrootOk root = true ∧
      w.innerPw = some ipw ∧ w.innerChdirOk ipw.dir = true ∧ w.execOk = true ∧
      p = SHELL ∧ a = ipw.shell :: argv.tail ∧ e = putenvUpd env (homeVar ipw.dir) ∧
      tr = Event.getpwE w.ruid (some pw)
        :: (derivePre w (pw.dir.take (MAX_STRING - 1))
            ++ Event.statE (shellHost root) (some FType.regular)
            :: Event.chdirE root true :: Event.chrootE root true
            :: Event.setuidE w.ruid w.setuidOk :: Event.getpwE w.ruid (some ipw)
            :: Event.chdirE ipw.dir true :: Event.putenvE (homeVar ipw.dir)
            :: [Event.execveE SHELL (ipw.shell :: argv.tail)
                  (putenvUpd env (homeVar ipw.dir))]) := by
  by_cases h1 : w.euid ≠ 0
  · simp [run, h1] at h
  · by_cases h2 : w.ruid = 0
    · simp [run, h1, h2] at h
    · cases hpw : w.outerPw with
      | none => simp [run, h1, h2, hpw] at h
      | some pw =>
        simp only [run, h1, if_false, h2, if_false, hpw] at h
        have hds := congrArg Prod.fst h
        have htr := congrArg Prod.snd h
        simp only [Prod.fst, Prod.snd] at hds htr
        obtain ⟨root, hx, hss, hdt⟩ := deriveStage_fst w argv env _ p a e hds
        obtain ⟨hstat, hjs, hst⟩ := shellStage_fst w argv env root p a e hss
        obtain ⟨hcd, hcr, his, hjt⟩ := jailStage_fst w argv env root p a e hjs
        obtain ⟨ipw, hin, hes, hit⟩ := innerStage_fst w argv env p a e his
        obtain ⟨hic, hex, hp, ha, he, het⟩ := execStage_fst w argv env ipw p a e hes
        refine ⟨pw, root, ipw, not_not.mp h1, h2, rfl, hx, hstat, hcd, hcr, hin,
          hic, hex, hp, ha, he, ?_⟩
        rw [← htr, hdt, hst, hjt, hit, het]

theorem envName_homeEq_append (d : List Char) : envName (homeEq ++ d) = homeName := rfl

theorem envName_homeVar (d : List Char) : envName (homeVar d) = homeName := rfl

theorem putenvUpd_find (env : List (List Char)) (s : List Char) :
    (putenvUpd env s).find? (fun e => envName e = envName s) = some s := by
  induction env with
  | nil => simp [putenvUpd, List.find?]
  | cons e rest ih =>
    by_cases h : envName e = envName s
    · simp [putenvUpd, h, List.find?]
    · simp only [putenvUpd, if_neg h]
      rw [List.find?_cons_of_neg _ (by simp [h])]
      exact ih

theorem putenvUpd_filter (env : List (List Char)) (s : List Char) :
    (putenvUpd env s).filter (fun e => ¬ envName e = envName s) =
      env.filter (fun e => ¬ envName e = envName s) := by
  induction env with
  | nil => simp [putenvUpd]
  | cons e rest ih =>
    by_cases h : envName e = envName s
    · simp [putenvUpd, h]
    · simp [putenvUpd, h]
      simpa [decide_not] using ih

theorem head?_take (l : List Char) (n : Nat) (hn : ¬ n = 0) :
    (l.take n).head? = l.head? := by
  cases l with
  | nil => simp
  | cons c t =>
    cases n with
    | zero => omega
    | succ m => simp

theorem derivePre_quiet (w : World) (cdir : List Char) (ev : Event)
    (hev : ev ∈ derivePre w cdir) : isQuiet ev = true := by
  by_cases hA : cdir.head? = some '/'
  · by_cases hB : w.statF cdir = none
    · simp [derivePre, hA, hB] at hev
      rcases hev with rfl | rfl <;> rfl
    · simp [derivePre, hA, hB] at hev
      subst hev; rfl
  · by_cases hB : w.statF cdir = none
    · simp [derivePre, hA, hB] at hev
      rcases hev with rfl | rfl | rfl <;> rfl
    · simp [derivePre, hA, hB] at hev
      rcases hev with rfl | rfl <;> rfl

theorem derivePre_countLookup (w : World) (cdir : List Char) :
    (derivePre w cdir).countP isLookup = 0 := by
  by_cases hA : cdir.head? = some '/' <;> by_cases hB : w.statF cdir = none <;>
    simp [derivePre, hA, hB, isLookup, List.countP_cons, List.countP_append]

theorem derivePre_no_chroot (w : World) (cdir : List Char) (r : List Char) (b : Bool) :
    ¬ Event.chrootE r b ∈ derivePre w cdir := by
  by_cases hA : cdir.head? = some '/' <;> by_cases hB : w.statF cdir = none <;>
    simp [derivePre, hA, hB]

theorem execStage_no_chroot (w : World) (argv env : List (List Char)) (ipw : PwEnt)
    (r : List Char) (b : Bool) : ¬ Event.chrootE r b ∈ (execStage w argv env ipw).2 := by
  by_cases h1 : w.innerChdirOk ipw.dir = true <;> simp [execStage, h1]

theorem innerStage_no_chroot (w : World) (argv env : List (List Char))
    (r : List Char) (b : Bool) : ¬ Event.chrootE r b ∈ (innerStage w argv env).2 := by
  intro hmem
  cases hin : w.innerPw with
  | none => simp [innerStage, hin] at hmem
  | some ipw =>
    rw [innerStage] at hmem
    simp only [hin] at hmem
    rcases List.mem_cons.mp hmem with hc | hc
    · exact Event.noConfusion hc
    · exact execStage_no_chroot w argv env ipw r b hc

theorem shellStage_trace_head (w : World) (argv env : List (List Char))
    (root : List Char) :
    ∃ t2, (shellStage w argv env root).2 =
      Event.statE (shellHost root) (w.statF (shellHost root)) :: t2 := by
  cases hst : w.statF (shellHost root) with
  | none => exact ⟨[Event.errE Diag.shellStatFail], by simp [shellStage, hst]⟩
  | some ft =>
    by_cases hf : ft = FType.regular
    · subst hf
      exact ⟨(jailStage w argv env root).2, by simp [shellStage, hst]⟩
    · exact ⟨[Event.errE Diag.shellNotRegular], by simp [shellStage, hst, hf]⟩

/-- C1: in every successful run the operations occur in the order one
chdir(jail root), one chroot(jail root), one setuid(real uid), one inner
password lookup, one chdir(inner home), one putenv of HOME, one execve of
the SHELL constant, with no other filesystem, I/O, environment or
password-lookup operation between the chroot call and the setuid call
(the two are adjacent in the trace), and everything before jail entry is
a stat, a diagnostic, or the single outer lookup. -/
theorem claim_C1 (w : World) (argv env : List (List Char)) (p : List Char)
    (a e : List (List Char)) (tr : List Event)
    (h : run w argv env = (Outcome.execed p a e, tr)) :
    C1Concl w p a e tr := by
  obtain ⟨pw, root, ipw, he0, hr0, hpw, hx, hstat, hcd, hcr, hin, hic, hex,
    hp, ha, hee, htr⟩ := run_execed w argv env p a e tr h
  subst hp; subst ha; subst hee
  refine ⟨Event.getpwE w.ruid (some pw)
      :: derivePre w (pw.dir.take (MAX_STRING - 1))
      ++ [Event.statE (shellHost root) (some FType.regular)],
    root, ipw, hin, rfl, ?_, ?_, ?_,
    ⟨ipw.dir.take (MAX_STRING - homeEq.length), rfl⟩⟩
  · rw [htr]
    simp [List.append_assoc]
  · intro ev hev
    rcases List.mem_cons.mp hev with rfl | hev2
    · rfl
    · rcases List.mem_append.mp hev2 with hev3 | hev3
      · exact derivePre_quiet w _ ev hev3
      · rcases List.mem_singleton.mp hev3 with rfl
        rfl
  · simp [List.countP_cons, List.countP_append, derivePre_countLookup, isLookup]

/-- C1 witness: the happy-path world reaches execve and its trace has the
required shape. -/
theorem claim_C1_witness :
    ∃ p a e tr, run wHappy argvH envH = (Outcome.execed p a e, tr) ∧
      C1Concl wHappy p a e tr :=
  ⟨_, _, _, _, rfl, claim_C1 wHappy argvH envH _ _ _ _ rfl⟩

/-- C2: for every home path P (absolute: leading separator) and level L,
the jail-root derivation agrees with truncation just before the separator
index S(P)[L], fails exactly when P has fewer than L interior separators
after the leading one, returns the longest prefix containing exactly L
separators (counting the leading root separator, as the claim's examples
/home/chroot/home/joe -> /home/chroot and /a/b/c/d -> /a/b fix), and the
failure is fatal in a run, with the "too short" diagnostic. -/
theorem claim_C2 (P : List Char) (L : Nat) (habs : P.head? = some '/') :
    C2Concl P L := by
  have h1 := extractChroot_eq L P
  have hsep1 : 1 ≤ countSep P := by
    cases P with
    | nil => simp at habs
    | cons c rest =>
      have hc : c = '/' := by simpa using habs
      simp [countSep_cons, hc]
  refine ⟨h1, ?_, ?_, ?_⟩
  · rw [h1]
    cases hg : (sepIdx P)[L]? with
    | some i =>
      have hlt : L < (sepIdx P).length := by
        by_contra hno
        rw [List.getElem?_eq_none (Nat.le_of_not_lt hno)] at hg
        exact Option.noConfusion hg
      rw [sepIdx_length] at hlt
      simp
      omega
    | none =>
      have hlen : (sepIdx P).length ≤ L := by simpa using hg
      rw [sepIdx_length] at hlen
      simp
      omega
  · intro Q hQ
    rw [h1] at hQ
    cases hg : (sepIdx P)[L]? with
    | none => rw [hg] at hQ; simp at hQ
    | some i =>
      rw [hg] at hQ
      simp only [Option.map_some', Option.some.injEq] at hQ
      obtain ⟨hilen, hcnt, hmax⟩ := sepIdx_get_spec P L i hg
      subst hQ
      refine ⟨i, rfl, rfl, hcnt, ?_⟩
      intro n _ hn
      have hQlen : (P.take i).length = i := by
        simp [List.length_take]
        omega
      rw [hQlen]
      by_contra hgt
      have := hmax n (by omega)
      omega
  · intro w argv env pw he hr hpw hdir hplen hL hnone
    have hP : pw.dir.take (MAX_STRING - 1) = P := by
      rw [hdir]; exact List.take_of_length_le hplen
    have hnone2 : extractChroot CHROOT_LEVEL (pw.dir.take (MAX_STRING - 1)) = none := by
      rw [hP, ← hL]; exact hnone
    constructor
    · simp [run, he, hr, hpw, deriveStage, hnone2]
    · simp [run, he, hr, hpw, deriveStage, hnone2]

/-- C2 witness: the reference example /home/chroot/home/joe at level 2. -/
theorem claim_C2_witness :
    (("/home/chroot/home/joe").toList.head? = some '/') ∧
      C2Concl (("/home/chroot/home/joe").toList) 2 :=
  ⟨by decide, claim_C2 (("/home/chroot/home/joe").toList) 2 (by decide)⟩

/-- C3: any invocation with effective uid not 0, and any invocation with
real uid 0, exits non-zero with a diagnostic and without calling chroot,
setuid, or execve. -/
theorem claim_C3 (w : World) (argv env : List (List Char))
    (h : ¬ w.euid = 0 ∨ w.ruid = 0) : C3Concl w argv env := by
  by_cases h1 : w.euid ≠ 0
  · refine ⟨⟨-1, ?_, by norm_num⟩, ⟨Diag.needSetuidRoot, ?_⟩, ?_, ?_, ?_⟩ <;>
      simp [run, h1]
  · have h2 : w.ruid = 0 := by
      rcases h with hA | hB
      · exact absurd hA h1
      · exact hB
    refine ⟨⟨-1, ?_, by norm_num⟩, ⟨Diag.rootTarget, ?_⟩, ?_, ?_, ?_⟩ <;>
      simp [run, h1, h2]

/-- C3 witness: a non-setuid invocation (euid 1000) is refused. -/
theorem claim_C3_witness :
    (¬ wBadEuid.euid = 0 ∨ wBadEuid.ruid = 0) ∧ C3Concl wBadEuid argvH envH :=
  ⟨Or.inl (by decide), claim_C3 wBadEuid argvH envH (Or.inl (by decide))⟩

/-- C4: the claim says a failed setuid during jail entry is fatal, but the
source (line 164) ignores the return value of setuid.  On a world
identical to the happy path except that setuid fails, the run still
performs the inner lookup and reaches execve. -/
theorem claim_C4_code_bug :
    (run wSetuidFail argvH envH).1 =
      Outcome.execed SHELL [("/bin/bash").toList]
        [("TERM=vt100").toList, ("HOME=/home/joe").toList] ∧
    Event.setuidE 1000 false ∈ (run wSetuidFail argvH envH).2 ∧
    Event.getpwE 1000 (some pwInner) ∈ (run wSetuidFail argvH envH).2 := by decide

/-- C5: the claim says a run whose execve returns exits non-zero, but when
execve returns, `main` falls through to `return 0` (lines 196-198): on a
world identical to the happy path except that execve fails, the process
exit status is 0. -/
theorem claim_C5_code_bug :
    (run wExecFail argvH envH).1 = Outcome.exited 0 ∧
    Event.execveE SHELL [("/bin/bash").toList]
        [("TERM=vt100").toList, ("HOME=/home/joe").toList]
      ∈ (run wExecFail argvH envH).2 := by decide

/-- C7: the environment passed to execve is the inherited environment with
HOME set (replaced or added) to the inner home path and every other
inherited variable unchanged (stated for inner home paths that fit the
1024-byte buffer, where the source's strncat does not truncate). -/
theorem claim_C7 (w : World) (argv env : List (List Char)) (p : List Char)
    (a e : List (List Char)) (tr : List Event) (ipw : PwEnt)
    (h : run w argv env = (Outcome.execed p a e, tr))
    (hin : w.innerPw = some ipw)
    (hlen : ipw.dir.length ≤ MAX_STRING - homeEq.length) :
    C7Concl env e ipw.dir := by
  obtain ⟨pw, root, ipw2, _, _, _, _, _, _, _, hin2, _, _, _, _, hee, _⟩ :=
    run_execed w argv env p a e tr h
  rw [hin] at hin2
  obtain rfl : ipw = ipw2 := by
    injection hin2 with hx
  subst hee
  have hid : homeVar ipw.dir = homeEq ++ ipw.dir := by
    rw [homeVar, List.take_of_length_le hlen]
  rw [C7Concl, hid]
  constructor
  · have hf := putenvUpd_find env (homeEq ++ ipw.dir)
    simpa [envName_homeEq_append] using hf
  · have hf := putenvUpd_filter env (homeEq ++ ipw.dir)
    simpa [envName_homeEq_append] using hf

/-- C7 witness: on the happy path the exec environment keeps TERM and
rewrites HOME to the inner home. -/
theorem claim_C7_witness :
    ∃ p a e tr, run wHappy argvH envH = (Outcome.execed p a e, tr) ∧
      C7Concl envH e pwInner.dir :=
  ⟨_, _, _, _, rfl, claim_C7 wHappy argvH envH _ _ _ _ pwInner rfl rfl (by decide)⟩

/-- C8: the exec stage executes the SHELL constant while argv[0] is
rewritten to the shell path of the inner password record and the
remaining argv entries are inherited from the invoker. -/
theorem claim_C8 (w : World) (argv env : List (List Char)) (p : List Char)
    (a e : List (List Char)) (tr : List Event)
    (h : run w argv env = (Outcome.execed p a e, tr)) :
    ∃ ipw, w.innerPw = some ipw ∧ C8Concl argv p a ipw := by
  obtain ⟨pw, root, ipw, _, _, _, _, _, _, _, hin, _, _, hp, ha, _, _⟩ :=
    run_execed w argv env p a e tr h
  exact ⟨ipw, hin, hp, ha, by rw [ha]; rfl⟩

/-- C8 witness: on the happy path, execve runs /bin/bash (SHELL) with
argv[0] equal to the inner record's shell. -/
theorem claim_C8_witness :
    ∃ p a e tr, run wHappy argvH envH = (Outcome.execed p a e, tr) ∧
      ∃ ipw, wHappy.innerPw = some ipw ∧ C8Concl argvH p a ipw :=
  ⟨_, _, _, _, rfl, claim_C8 wHappy argvH envH _ _ _ _ rfl⟩

/-- C9: a non-absolute outer home path is reported but not fatal: the
diagnostic is followed by the home stat, and the derivation proceeds on
the relative path. -/
theorem claim_C9 (w : World) (argv env : List (List Char)) (pw : PwEnt)
    (he : w.euid = 0) (hr : ¬ w.ruid = 0) (hpw : w.outerPw = some pw)
    (hrel : ¬ pw.dir.head? = some '/') : C9Concl w argv env pw := by
  have hrelc : ¬ (pw.dir.take (MAX_STRING - 1)).head? = some '/' := by
    rw [head?_take pw.dir (MAX_STRING - 1) (by norm_num [MAX_STRING])]
    exact hrel
  have hrun2 : (run w argv env).2 =
      Event.getpwE w.ruid (some pw)
        :: (deriveStage w argv env (pw.dir.take (MAX_STRING - 1))).2 := by
    simp [run, he, hr, hpw]
  have hrun1 : (run w argv env).1 =
      (deriveStage w argv env (pw.dir.take (MAX_STRING - 1))).1 := by
    simp [run, he, hr, hpw]
  have hpre : derivePre w (pw.dir.take (MAX_STRING - 1)) =
      Event.errE Diag.relHome
        :: Event.statE (pw.dir.take (MAX_STRING - 1))
            (w.statF (pw.dir.take (MAX_STRING - 1)))
        :: (if w.statF (pw.dir.take (MAX_STRING - 1)) = none
            then [Event.errE Diag.homeStatFail] else []) := by
    simp [derivePre, hrelc]
  refine ⟨?_, ?_, ?_⟩
  · cases hx : extractChroot CHROOT_LEVEL (pw.dir.take (MAX_STRING - 1)) with
    | none =>
      refine ⟨(if w.statF (pw.dir.take (MAX_STRING - 1)) = none
          then [Event.errE Diag.homeStatFail] else [])
          ++ [Event.errE Diag.tooShort], ?_⟩
      rw [hrun2]
      simp [deriveStage, hx, hpre]
    | some root =>
      refine ⟨(if w.statF (pw.dir.take (MAX_STRING - 1)) = none
          then [Event.errE Diag.homeStatFail] else [])
          ++ (shellStage w argv env root).2, ?_⟩
      rw [hrun2]
      simp [deriveStage, hx, hpre]
  · intro hx
    constructor
    · rw [hrun1]; simp [deriveStage, hx]
    · rw [hrun2]; simp [deriveStage, hx]
  · intro root hx
    obtain ⟨t2, hst⟩ := shellStage_trace_head w argv env root
    rw [hrun2]
    simp [deriveStage, hx, hst]

/-- C9 witness: a relative outer home (home/chroot/home/joe) produces the
diagnostic yet the run proceeds into derivation and the shell check. -/
theorem claim_C9_witness :
    (¬ pwRel.dir.head? = some '/') ∧ C9Concl wRel argvH envH pwRel :=
  ⟨by decide, claim_C9 wRel argvH envH pwRel rfl (by decide) rfl (by decide)⟩

/-- C10: the run depends on the outer home path only through its first
MAX_STRING - 1 = 1023 characters: truncating the outer record's home to
that prefix changes neither the outcome nor any event after the outer
lookup (the bounded copy of lines 100-101 feeds the walk and everything
downstream). -/
theorem claim_C10 (w : World) (pw : PwEnt) (argv env : List (List Char))
    (h : w.outerPw = some pw) :
    (run w argv env).1 = (run (truncOuter w pw) argv env).1 ∧
    (run w argv env).2.tail = (run (truncOuter w pw) argv env).2.tail := by
  by_cases h1 : w.euid ≠ 0
  · constructor <;> simp [run, truncOuter, h1]
  · by_cases h2 : w.ruid = 0
    · constructor <;> simp [run, truncOuter, h1, h2]
    · constructor <;>
        · simp [run, truncOuter, h1, h2, h, List.take_take]
          rfl

/-- C10 witness: truncating the happy-path outer home is invisible. -/
theorem claim_C10_witness :
    wHappy.outerPw = some pwOuter ∧
      ((run wHappy argvH envH).1 = (run (truncOuter wHappy pwOuter) argvH envH).1 ∧
        (run wHappy argvH envH).2.tail =
          (run (truncOuter wHappy pwOuter) argvH envH).2.tail) :=
  ⟨rfl, claim_C10 wHappy pwOuter argvH envH rfl⟩

theorem run_chroot_helper (w : World) (argv env : List (List Char)) (pw : PwEnt)
    (root : List Char)
    (hpw : w.outerPw = some pw)
    (hroot : extractChroot CHROOT_LEVEL (pw.dir.take (MAX_STRING - 1)) = some root)
    (r : List Char) (b : Bool)
    (hmem : Event.chrootE r b ∈ (run w argv env).2) :
    r = root ∧ w.statF (shellHost root) = some FType.regular ∧
      ∃ pre post,
        (run w argv env).2 = pre ++ Event.statE (shellHost root) (some FType.regular) :: post ∧
        (∀ r2 b2, ¬ Event.chrootE r2 b2 ∈ pre) ∧
        Event.chrootE r b ∈ post := by
  by_cases h1 : w.euid ≠ 0
  · simp [run, h1] at hmem
  · by_cases h2 : w.ruid = 0
    · simp [run, h1, h2] at hmem
    · have hrun2 : (run w argv env).2 =
          Event.getpwE w.ruid (some pw)
            :: (deriveStage w argv env (pw.dir.take (MAX_STRING - 1))).2 := by
        simp [run, h1, h2, hpw]
      have hds2 : (deriveStage w argv env (pw.dir.take (MAX_STRING - 1))).2 =
          derivePre w (pw.dir.take (MAX_STRING - 1))
            ++ (shellStage w argv env root).2 := by
        simp [deriveStage, hroot]
      rw [hrun2, hds2] at hmem
      rcases List.mem_cons.mp hmem with hc | hmem2
      · exact absurd hc (by simp)
      rcases List.mem_append.mp hmem2 with hc | hmem3
      · exact absurd hc (derivePre_no_chroot w _ r b)
      cases hst : w.statF (shellHost root) with
      | none => simp [shellStage, hst] at hmem3
      | some ft =>
        by_cases hf : ft = FType.regular
        · subst hf
          have hss2 : (shellStage w argv env root).2 =
              Event.statE (shellHost root) (some FType.regular)
                :: (jailStage w argv env root).2 := by
            simp [shellStage, hst]
          rw [hss2] at hmem3
          rcases List.mem_cons.mp hmem3 with hc | hmem4
          · exact absurd hc (by simp)
          have hreq : r = root := by
            by_cases hcd : w.chdirOk root = true
            · by_cases hcr : w.chrootOk root = true
              · have hjt : (jailStage w argv env root).2 =
                    Event.chdirE root true :: Event.chrootE root true ::
                      Event.setuidE w.ruid w.setuidOk :: (innerStage w argv env).2 := by
                  simp [jailStage, hcd, hcr]
                rw [hjt] at hmem4
                rcases List.mem_cons.mp hmem4 with hc | hmem5
                · exact absurd hc (by simp)
                rcases List.mem_cons.mp hmem5 with hc | hmem6
                · injection hc with hc1 hc2
                rcases List.mem_cons.mp hmem6 with hc | hmem7
                · exact absurd hc (by simp)
                · exact absurd hmem7 (innerStage_no_chroot w argv env r b)
              · have hjt : (jailStage w argv env root).2 =
                    [Event.chdirE root true, Event.chrootE root false,
                      Event.errE Diag.chrootFail] := by
                  simp [jailStage, hcd, hcr]
                rw [hjt] at hmem4
                rcases List.mem_cons.mp hmem4 with hc | hmem5
                · exact absurd hc (by simp)
                rcases List.mem_cons.mp hmem5 with hc | hmem6
                · injection hc with hc1 hc2
                · simp at hmem6
            · have hjt : (jailStage w argv env root).2 =
                  [Event.chdirE root false, Event.errE Diag.chdirRootFail] := by
                simp [jailStage, hcd]
              rw [hjt] at hmem4
              simp at hmem4
          refine ⟨hreq, rfl,
            Event.getpwE w.ruid (some pw) :: derivePre w (pw.dir.take (MAX_STRING - 1)),
            (jailStage w argv env root).2, ?_, ?_, hmem4⟩
          · rw [hrun2, hds2, hss2]
            simp
          · intro r2 b2 hm
            rcases List.mem_cons.mp hm with hc | hm2
            · exact absurd hc (by simp)
            · exact absurd hm2 (derivePre_no_chroot w _ r2 b2)
        · simp [shellStage, hst, hf] at hmem3

/-- C6: the shell existence check runs on the host-visible concatenation
jail-root ++ SHELL strictly before any chroot call, and a failed stat or
a non-regular file is fatal before chroot (stated for jail roots for
which the concatenation fits the 1024-byte buffer, where the source's
strncat does not truncate). -/
theorem claim_C6 (w : World) (argv env : List (List Char)) (pw : PwEnt)
    (root : List Char)
    (hpw : w.outerPw = some pw)
    (hroot : extractChroot CHROOT_LEVEL (pw.dir.take (MAX_STRING - 1)) = some root)
    (hfit : root.length + SHELL.length ≤ MAX_STRING) :
    C6Concl w argv env root := by
  have hsh : shellHost root = root ++ SHELL := by
    rw [shellHost]
    exact List.take_of_length_le (by simpa using hfit)
  refine ⟨?_, ?_, ?_⟩
  · intro hst
    have hst2 : w.statF (shellHost root) = none := by rw [hsh]; exact hst
    constructor
    · by_cases h1 : w.euid ≠ 0
      · simp [run, h1]
      · by_cases h2 : w.ruid = 0
        · simp [run, h1, h2]
        · simp [run, h1, h2, hpw, deriveStage, hroot, shellStage, hst2]
    · intro r b hmem
      obtain ⟨_, hreg, _⟩ := run_chroot_helper w argv env pw root hpw hroot r b hmem
      rw [hst2] at hreg
      exact Option.noConfusion hreg
  · intro ft hst hnr
    have hst2 : w.statF (shellHost root) = some ft := by rw [hsh]; exact hst
    constructor
    · by_cases h1 : w.euid ≠ 0
      · simp [run, h1]
      · by_cases h2 : w.ruid = 0
        · simp [run, h1, h2]
        · simp [run, h1, h2, hpw, deriveStage, hroot, shellStage, hst2, hnr]
    · intro r b hmem
      obtain ⟨_, hreg, _⟩ := run_chroot_helper w argv env pw root hpw hroot r b hmem
      rw [hst2] at hreg
      injection hreg with hc
      exact hnr hc
  · intro r b hmem
    obtain ⟨hr, hreg, pre, post, htr, hnc, hpost⟩ :=
      run_chroot_helper w argv env pw root hpw hroot r b hmem
    rw [hsh] at hreg htr
    exact ⟨hr, hreg, pre, post, htr, hnc, hpost⟩

/-- C6 witness: on the happy path the stat of /home/chroot/bin/bash is a
regular file, and the chroot call is on /home/chroot, after that stat. -/
theorem claim_C6_witness :
    (wHappy.outerPw = some pwOuter ∧
      extractChroot CHROOT_LEVEL (pwOuter.dir.take (MAX_STRING - 1)) =
        some (("/home/chroot").toList) ∧
      ("/home/chroot").toList.length + SHELL.length ≤ MAX_STRING) ∧
      C6Concl wHappy argvH envH (("/home/chroot").toList) :=
  ⟨⟨rfl, by decide, by decide⟩,
    claim_C6 wHappy argvH envH pwOuter (("/home/chroot").toList) rfl (by decide) (by decide)⟩

end Chrlogin
